import Mathlib

/-!
Verification of the path-management core (`angr/path.py`): `CallFrame`,
`CallStack`, `Path` stepping/caching, call-stack maintenance, merge/unmerge
and the diagnostic queries, shallowly embedded in Lean.

Conventions of the embedding:
* Python lists are Lean `List`s; `list.append` adds at the tail, so the
  top of a `CallStack` is the *last* element, exactly as in the source.
* Machine addresses and register values are `Int` (Python ints are unbounded).
* Values that may be `None` are `Option`.
* Python code that can raise is embedded in `Except String` (the string names
  the Python exception class), or returns the raised exception alongside the
  mutated object state when the mutation must stay observable.
* The `path_history` module is not part of the excerpted source; the few facts
  about it that the code under verification needs (the root-to-leaf address
  trace and the parent chain) are modelled from the spec and marked as such.
-/

/-- One call-stack entry, `CallFrame`: function entry address, stack pointer
and return address (each absent when not resolvable from a symbolic value),
the transfer kind, and the per-block visit counter
(`collections.Counter` is modelled as a total function `Nat → Nat`). -/
structure CallFrame where
  func_addr : Option Int
  stack_ptr : Option Int
  ret_addr : Option Int
  jumpkind : Option String
  block_counter : Nat → Nat

/-- A frame with nothing recorded; used as the default heap content. -/
def CallFrame.empty : CallFrame :=
  { func_addr := none, stack_ptr := none, ret_addr := none,
    jumpkind := none, block_counter := fun _ => 0 }

instance : Inhabited CallFrame := ⟨CallFrame.empty⟩

/-- Increment of `cf.block_counter[a] += 1`. -/
def CallFrame.bump (cf : CallFrame) (a : Nat) : CallFrame :=
  { cf with block_counter :=
      fun b => if b = a then cf.block_counter a + 1 else cf.block_counter b }

/-- A `CallStack`'s `_callstack` list: bottom first, top = last element. -/
abbrev CallStackL := List CallFrame

/-- CallStack.__eq__: `False` on length mismatch, otherwise frame-by-frame
comparison of `func_addr`, `stack_ptr` and `ret_addr`, ignoring the visit
counters and the jumpkind. -/
def callstack_eq (a b : CallStackL) : Bool :=
  if a.length ≠ b.length then false
  else (a.zip b).all fun c =>
    decide (c.1.func_addr = c.2.func_addr) &&
    decide (c.1.stack_ptr = c.2.stack_ptr) &&
    decide (c.1.ret_addr = c.2.ret_addr)

/-- CallStack.__ne__ is `return self != other`, which re-enters `__ne__`
itself on the same operands.  Each recursive call consumes one unit of fuel
(one Python stack frame) and makes no progress; `none` means the call has not
produced a value within the given fuel. -/
def callstack_ne : Nat → CallStackL → CallStackL → Option Bool
  | 0, _, _ => none
  | n + 1, a, b => callstack_ne n a b

/-!  Call-stack management (`Path._manage_callstack`), driven once per step by
the jumpkind of the newly reached state. -/

/-- The scratch data of a successor state that `_manage_callstack` and
`CallFrame.__init__` read: the jumpkind, the reached block address, and the
(possibly unresolvable) concretizations used to build a new frame. -/
structure SimSucc where
  jumpkind : String
  bbl_addr : Nat
  func_addr : Option Int
  stack_ptr : Option Int
  ret_addr : Option Int

/-- CallFrame.__init__ with a state: resolve function address, stack pointer
and return address (absent on solver failure), take the state's jumpkind, and
start with an empty block counter. -/
def CallFrame.ofState (s : SimSucc) : CallFrame :=
  { func_addr := s.func_addr, stack_ptr := s.stack_ptr, ret_addr := s.ret_addr,
    jumpkind := some s.jumpkind, block_counter := fun _ => 0 }

/-- The sentinel frame `CallFrame(None, 0, 0, 0)` pushed when a return
unbalances the stack. -/
def sentinelFrame : CallFrame :=
  { func_addr := some 0, stack_ptr := some 0, ret_addr := some 0,
    jumpkind := none, block_counter := fun _ => 0 }

/-- Python's `str.startswith`, computed on the underlying character lists (the
library `String.startsWith` is defined by well-founded recursion and would not
reduce inside the kernel). -/
def pyStartsWith (s pre : String) : Bool :=
  pre.data.isPrefixOf s.data

/-- The push/pop part of `Path._manage_callstack`: on `Ijk_Call` or an
`Ijk_Sys*` jumpkind push `CallFrame(state)`, on `Ijk_Ret` pop the top frame
(recording it as `popped_callframe`) and push the sentinel if the stack
emptied, otherwise leave the stack alone.  `pop` on an empty stack raises
`ValueError`.  (The `callstack_backtrace` bookkeeping, which never reads the
stack, is not modelled.) -/
def manage_jump (cs : CallStackL) (s : SimSucc) :
    Except String (CallStackL × Option CallFrame) :=
  if s.jumpkind = "Ijk_Call" then
    .ok (cs ++ [CallFrame.ofState s], none)
  else if pyStartsWith s.jumpkind "Ijk_Sys" then
    .ok (cs ++ [CallFrame.ofState s], none)
  else if s.jumpkind = "Ijk_Ret" then
    match cs.getLast? with
    | none => .error "ValueError"
    | some top =>
        let cs' := cs.dropLast
        let cs'' := if cs'.length = 0 then cs' ++ [sentinelFrame] else cs'
        .ok (cs'', some top)
  else .ok (cs, none)

/-- Path._manage_callstack: the jump handling above, then
`self.callstack.top.block_counter[state.scratch.bbl_addr] += 1`
(`top` on an empty stack raises `ValueError`). -/
def manage_callstack (cs : CallStackL) (s : SimSucc) :
    Except String (CallStackL × Option CallFrame) :=
  match manage_jump cs s with
  | .error e => .error e
  | .ok (cs', popped) =>
      match cs'.getLast? with
      | none => .error "ValueError"
      | some top => .ok (cs'.dropLast ++ [top.bump s.bbl_addr], popped)

/-- Path.__init__ with `path=None`: the fresh callstack holds one frame for
the entry point, with `ret_addr = UNAVAILABLE_RET_ADDR = -1`. -/
def initCallStack (addr : Int) (sp : Option Int) : CallStackL :=
  [{ func_addr := some addr, stack_ptr := sp, ret_addr := some (-1),
     jumpkind := none, block_counter := fun _ => 0 }]

/-- Fold of `_manage_callstack` over a sequence of reached states, as driven
by successive steps; stops at the first raised exception. -/
def runCallstack (cs : CallStackL) : List SimSucc → Except String CallStackL
  | [] => .ok cs
  | s :: rest =>
      match manage_callstack cs s with
      | .error e => .error e
      | .ok (cs', _) => runCallstack cs' rest

lemma manage_jump_nonempty (cs : CallStackL) (s : SimSucc) (h : cs ≠ []) :
    ∃ c p, manage_jump cs s = .ok (c, p) ∧ c ≠ [] := by
  rcases List.eq_nil_or_concat cs with rfl | ⟨l, a, rfl⟩
  · exact absurd rfl h
  simp only [List.concat_eq_append]
  unfold manage_jump
  by_cases h1 : s.jumpkind = "Ijk_Call"
  · rw [if_pos h1]; exact ⟨_, _, rfl, by simp⟩
  rw [if_neg h1]
  by_cases h2 : pyStartsWith s.jumpkind "Ijk_Sys" = true
  · rw [if_pos h2]; exact ⟨_, _, rfl, by simp⟩
  rw [if_neg h2]
  by_cases h3 : s.jumpkind = "Ijk_Ret"
  · rw [if_pos h3, List.getLast?_concat]
    simp only [List.dropLast_concat]
    refine ⟨_, _, rfl, ?_⟩
    rcases l with _ | ⟨b, l'⟩ <;> simp
  · rw [if_neg h3]; exact ⟨_, _, rfl, by simp⟩

lemma manage_callstack_nonempty (cs : CallStackL) (s : SimSucc) (h : cs ≠ []) :
    ∃ c p, manage_callstack cs s = .ok (c, p) ∧ c ≠ [] := by
  obtain ⟨c, p, hok, hc⟩ := manage_jump_nonempty cs s h
  rcases List.eq_nil_or_concat c with rfl | ⟨l, a, rfl⟩
  · exact absurd rfl hc
  simp only [List.concat_eq_append] at hok
  refine ⟨l ++ [a.bump s.bbl_addr], p, ?_, by simp⟩
  unfold manage_callstack
  rw [hok]
  simp [List.getLast?_concat, List.dropLast_concat]

lemma runCallstack_nonempty (steps : List SimSucc) :
    ∀ cs : CallStackL, cs ≠ [] →
      ∃ c, runCallstack cs steps = .ok c ∧ c ≠ [] := by
  induction steps with
  | nil => exact fun cs h => ⟨cs, rfl, h⟩
  | cons s rest ih =>
      intro cs h
      obtain ⟨c, p, hok, hc⟩ := manage_callstack_nonempty cs s h
      obtain ⟨c', hok', hc'⟩ := ih c hc
      exact ⟨c', by simpa [runCallstack, hok] using hok', hc'⟩

/-- C5: starting from the callstack built by `Path.__init__` (one frame), any
sequence of call-stack updates driven by steps — including more return-type
transfers than call-type ones — raises no exception and never leaves the
callstack empty; and a return-type transfer arriving at a single-frame stack
pops that frame and pushes the all-zero sentinel frame (whose visit counter is
then bumped for the reached block). -/
theorem callstack_never_empty :
    (∀ (addr : Int) (sp : Option Int) (steps : List SimSucc),
      ∃ cs, runCallstack (initCallStack addr sp) steps = .ok cs ∧ cs ≠ []) ∧
    (∀ (f : CallFrame) (ba : Nat) (fa spp ra : Option Int),
      manage_callstack [f]
          { jumpkind := "Ijk_Ret", bbl_addr := ba,
            func_addr := fa, stack_ptr := spp, ret_addr := ra } =
        .ok ([sentinelFrame.bump ba], some f)) := by
  constructor
  · intro addr sp steps
    exact runCallstack_nonempty steps (initCallStack addr sp) (by simp [initCallStack])
  · intro f ba fa spp ra
    rfl

/-- C10: `CallStack.__ne__` never terminates — for every amount of fuel (Python
recursion depth) and any two callstacks it fails to produce a boolean, in
particular it never returns the negation of the structural equality
`callstack_eq`. -/
theorem callstack_ne_diverges :
    ∀ (fuel : Nat) (a b : CallStackL),
      callstack_ne fuel a b = none ∧
      callstack_ne fuel a b ≠ some (!callstack_eq a b) := by
  intro fuel
  induction fuel with
  | zero => intro a b; exact ⟨rfl, by simp [callstack_ne]⟩
  | succ n ih => intro a b; simpa [callstack_ne] using ih a b

/-!  Diagnostics: `Path.divergence_addr`. -/

/-- Python list indexing `xs[i]`: negative indices wrap around from the end;
out-of-range access raises `IndexError`. -/
def pyIdx (xs : List Int) (i : Int) : Except String Int :=
  let j : Int := if i < 0 then (xs.length : Int) + i else i
  if _h : 0 ≤ j ∧ j < (xs.length : Int) then .ok (xs.getD j.toNat 0)
  else .error "IndexError"

/-- The loop of `Path.divergence_addr`, iterating `i` over
`range(max(len(trace1), len(trace2)))` (`fuel` counts the remaining
iterations).  Note the source compares with `i > len(trace)` — not `>=` — so
positions `i = len(trace)` fall through to the element accesses. -/
def divergenceAddrAux (t1 t2 : List Int) : Nat → Nat → Except String (Option Int)
  | _, 0 => .ok none
  | i, fuel + 1 =>
    if i > t1.length then (pyIdx t2 ((i : Int) - 1)).map some
    else if i > t2.length then (pyIdx t1 ((i : Int) - 1)).map some
    else do
      let a ← pyIdx t1 (i : Int)
      let b ← pyIdx t2 (i : Int)
      if a ≠ b then (pyIdx t1 ((i : Int) - 1)).map some
      else divergenceAddrAux t1 t2 (i + 1) fuel

/-- Path.divergence_addr over the two root-to-leaf address traces
(`self.addr_trace.hardcopy` and `other.addr_trace.hardcopy`); returns `none`
(Python `None`) when the loop finishes without an early return. -/
def Path.divergence_addr (t1 t2 : List Int) : Except String (Option Int) :=
  divergenceAddrAux t1 t2 0 (max t1.length t2.length)

/-- C2: on the spec's own scenario `[0x10,0x20]` vs `[0x10,0x20,0x30]` (one
trace a strict prefix of the other) `divergence_addr` does not return `0x20`:
the off-by-one guard `i > len(trace1)` lets `i = len(trace1)` through to the
element access `trace1[i]`, raising `IndexError`.  The first-mismatch case of
the claim does hold: `[0x10,0x20,0x30]` vs `[0x10,0x20,0x40]` yields `0x20`. -/
theorem divergence_addr_prefix_raises :
    Path.divergence_addr [0x10, 0x20] [0x10, 0x20, 0x30] = .error "IndexError" ∧
    Path.divergence_addr [0x10, 0x20, 0x30] [0x10, 0x20, 0x40] = .ok (some 0x20) := by
  constructor <;> rfl

/-!  Stepping, successor computation and the per-option-set cache
(`Path.step`, `Path.clear`, `Path._make_sim_run`), and the `ErroredPath`
variant.  The transfer engine `project.factory.sim_run` is external; it is
modelled as a value of `Except PyExc SimRun` (its outcome for the current
state), and every invocation of it is counted. -/

/-- The Python exception classes that `path.py` distinguishes. -/
inductive PyExc
  /-- `AngrError` (and, per the spec's error taxonomy, its `AngrPathError`
  subclass carrying a message). -/
  | angrError
  | angrPathError (msg : String)
  | simError
  | claripyError
  | typeError
  | valueError
  | arithmeticError
  | memoryError
  | otherError (msg : String)
deriving DecidableEq

/-- The two `except` clauses of `Path._make_sim_run` capture
`(AngrError, simuvex.SimError, claripy.ClaripyError)` and
`(TypeError, ValueError, ArithmeticError, MemoryError)`. -/
def captured (e : PyExc) : Bool :=
  match e with
  | .angrError | .angrPathError _ | .simError | .claripyError => true
  | .typeError | .valueError | .arithmeticError | .memoryError => true
  | .otherError _ => false

/-- The result object of a successful `sim_run`: the flat successor states
(reduced to their instruction pointers), whether the run is a `SimIRSB`, and
the size of the lifted block. -/
structure SimRun where
  flat_successors : List Int
  is_irsb : Bool
  irsb_size : Int
deriving DecidableEq

/-- `sim_run` keyword arguments (`run_args`), as a keyword/value dictionary;
`Path.__init__` starts with `self._run_args = None`. -/
abbrev RunArgs := List (String × Int)

/-- The mutable stepping state of a `Path`: current address, cached
`_run_args`, cached `_run`, and captured `_run_error`. -/
structure PathExec where
  addr : Int
  run_args : Option RunArgs
  run : Option SimRun
  run_error : Option PyExc
deriving DecidableEq

/-- Path._make_sim_run: reset `_run` and `_run_error`, invoke the engine, and
capture a recognized failure into `_run_error` instead of propagating it —
re-raising only when `throw` was requested.  Returns the updated path state
and the exception that propagates to the caller (if any); the caller of this
function is charged one engine invocation. -/
def Path.make_sim_run (engine : Except PyExc SimRun) (thr : Bool) (p : PathExec) :
    PathExec × Option PyExc :=
  match engine with
  | .ok r => ({ p with run := some r, run_error := none }, none)
  | .error e =>
      if captured e then
        ({ p with run := none, run_error := some e }, if thr then some e else none)
      else
        ({ p with run := none, run_error := none }, some e)

/-- What one call to `Path.step` hands back to the caller. -/
inductive StepOut
  /-- `[ self.copy(error=self._run_error) ]`: a single `ErroredPath` wrapping
  the captured error. -/
  | errored (e : PyExc)
  /-- The flat successors, wrapped as child paths (reduced to their
  instruction pointers). -/
  | paths (ips : List Int)
deriving DecidableEq

/-- Does the `run_args` dictionary bind keyword `k`? -/
def RunArgs.hasKey (args : RunArgs) (k : String) : Bool :=
  args.any fun kv => kv.1 = k

/-- Path.step: recompute via `_make_sim_run` iff the cached `_run_args` differ
from the requested ones or there is no cached `_run`; then return the single
errored copy if an error was captured, else the flat successors — applying the
`insn_bytes` fall-through correction (a single successor sitting exactly past
the injected block has its instruction pointer moved back to the original
address).  Result: updated path state, propagated exception (if any), the
output (if no exception), and the number of engine invocations made. -/
def Path.step (engine : Except PyExc SimRun) (thr : Bool) (args : RunArgs)
    (p : PathExec) : PathExec × Option PyExc × Option StepOut × Nat :=
  let recompute : Bool := p.run_args ≠ some args || p.run = none
  let (p, raised, calls) :=
    if recompute then
      let (p', r) := Path.make_sim_run engine thr { p with run_args := some args }
      (p', r, 1)
    else (p, none, 0)
  match raised with
  | some e => (p, some e, none, calls)
  | none =>
      match p.run_error with
      | some e => (p, none, some (.errored e), calls)
      | none =>
          match p.run with
          | none => (p, none, some (.paths []), calls)  -- unreachable: a run exists here
          | some r =>
              let out := r.flat_successors
              let out :=
                if args.hasKey "insn_bytes" && !args.hasKey "addr" &&
                    decide (out.length = 1) && r.is_irsb &&
                    decide (out.headI = p.addr + r.irsb_size)
                then [p.addr] else out
              (p, none, some (.paths out), calls)

/-- Two consecutive `Path.step` calls with the identical option set and no
intervening `clear()`; returns the total number of engine invocations. -/
def Path.stepTwice (engine : Except PyExc SimRun) (thr : Bool) (args : RunArgs)
    (p : PathExec) : Nat :=
  let r1 := Path.step engine thr args p
  let r2 := Path.step engine thr args r1.1
  r1.2.2.2 + r2.2.2.2

lemma step_cached_no_call (engine : Except PyExc SimRun) (thr : Bool)
    (args : RunArgs) (p : PathExec) (hargs : p.run_args = some args)
    (hrun : p.run ≠ none) :
    ∃ out, Path.step engine thr args p = (p, none, out, 0) := by
  unfold Path.step
  have hrec : (p.run_args ≠ some args || p.run = none) = false := by
    simp [hargs, hrun]
  rw [hrec]
  simp only [Bool.false_eq_true, if_false]
  rcases p.run_error with _ | e
  · rcases hr : p.run with _ | r
    · exact absurd hr hrun
    · simp [hr]
  · simp

lemma step_recompute_ok (r : SimRun) (thr : Bool) (args : RunArgs)
    (p : PathExec) (hrec : (p.run_args ≠ some args || p.run = none) = true) :
    ∃ out, Path.step (.ok r) thr args p =
      ({ p with run_args := some args, run := some r, run_error := none },
        none, out, 1) := by
  unfold Path.step
  rw [hrec]
  simp [Path.make_sim_run]

/-- C3 (amended): when the transfer attempt succeeds, two consecutive `step`
calls with identical options and no intervening `clear()` invoke the engine at
most once in total — the second call hits the cache.  (Without the success
hypothesis the claim fails, see the counterexample: a captured engine failure
leaves `_run = None`, so the second call re-invokes the engine.) -/
theorem step_twice_engine_at_most_once (engine : Except PyExc SimRun)
    (thr : Bool) (args : RunArgs) (p : PathExec)
    (hok : ∃ r, engine = .ok r) :
    Path.stepTwice engine thr args p ≤ 1 := by
  obtain ⟨r, rfl⟩ := hok
  show (Path.step (.ok r) thr args p).2.2.2
      + (Path.step (.ok r) thr args (Path.step (.ok r) thr args p).1).2.2.2 ≤ 1
  by_cases hrec : (p.run_args ≠ some args || p.run = none) = true
  · obtain ⟨out, h1⟩ := step_recompute_ok r thr args p hrec
    obtain ⟨out', h2⟩ := step_cached_no_call (.ok r) thr args
      { p with run_args := some args, run := some r, run_error := none }
      rfl (by simp)
    rw [h1]
    simpa using le_of_eq (congrArg (fun t => t.2.2.2) h2)
  · have hargs : p.run_args = some args := by
      by_contra hne
      exact hrec (by simp [hne])
    have hrun : p.run ≠ none := by
      by_contra hn
      exact hrec (by simp [hn])
    obtain ⟨out, h1⟩ := step_cached_no_call (.ok r) thr args p hargs hrun
    rw [h1]
    simp only
    obtain ⟨out', h2⟩ := step_cached_no_call (.ok r) thr args p hargs hrun
    rw [h2]
    simp

/-- C3 witness: a fresh path stepped twice with a succeeding engine performs
at most one engine invocation in total. -/
theorem step_twice_engine_at_most_once_witness :
    Path.stepTwice (.ok ⟨[0x5000], true, 4⟩) false [] ⟨0x4000, none, none, none⟩ ≤ 1 :=
  step_twice_engine_at_most_once (.ok ⟨[0x5000], true, 4⟩) false []
    ⟨0x4000, none, none, none⟩ ⟨⟨[0x5000], true, 4⟩, rfl⟩

/-- C3 counterexample: with an engine whose attempt fails with a captured
error (here `ValueError`) and `throw` unset, stepping a fresh path twice with
identical options and no `clear()` invokes the engine twice — the claim's
"at most once in total" is false on the code. -/
theorem step_twice_engine_twice_on_error :
    Path.stepTwice (.error .valueError) false [] ⟨0x4000, none, none, none⟩ = 2 ∧
    ¬ Path.stepTwice (.error .valueError) false [] ⟨0x4000, none, none, none⟩ ≤ 1 := by
  exact ⟨rfl, by decide⟩

/-- C4: a `MemoryError` raised by the transfer engine during `step` with
`throw` unset is *not* propagated: `_make_sim_run` captures it into
`_run_error` and raises nothing, and `step` absorbs it into a single
`ErroredPath` result.  (The spec flags exactly this over-catching as a bug:
resource exhaustion should propagate as fatal.) -/
theorem memory_error_captured_not_propagated :
    Path.make_sim_run (.error .memoryError) false ⟨0x4000, some [], none, none⟩ =
      (⟨0x4000, some [], none, some .memoryError⟩, none) ∧
    (Path.step (.error .memoryError) false [] ⟨0x4000, none, none, none⟩).2.1 = none ∧
    (Path.step (.error .memoryError) false [] ⟨0x4000, none, none, none⟩).2.2.1 =
      some (.errored .memoryError) := by
  refine ⟨rfl, rfl, rfl⟩

/-!  `ErroredPath`: the terminal variant produced when a step fails. -/

/-- ErroredPath.step: unconditionally raises
`AngrPathError("Cannot step forward an errored path")`, whatever the
arguments; it never produces successors. -/
def ErroredPath.step (_args : RunArgs) (_p : PathExec) : Except PyExc StepOut :=
  .error (.angrPathError "Cannot step forward an errored path")

/-- ErroredPath.retry: store the new `_run_args`, re-invoke the engine
*unguarded* (`self._run = self._project.factory.sim_run(...)`: a failure
propagates to the caller), then behave like a normal `Path.step` on the now
cached run.  The final component counts engine invocations. -/
def ErroredPath.retry (engine : Except PyExc SimRun) (args : RunArgs)
    (p : PathExec) : PathExec × Option PyExc × Option StepOut × Nat :=
  match engine with
  | .error e => ({ p with run_args := some args }, some e, none, 1)
  | .ok r =>
      let p' := { p with run_args := some args, run := some r }
      let s := Path.step engine false args p'
      (s.1, s.2.1, s.2.2.1, 1 + s.2.2.2)

/-- C8: stepping an `ErroredPath` always raises `AngrPathError` and never
produces successors, for every argument set and path state; re-attempting the
transfer is done by the explicit `retry`, which always invokes the engine
(exactly once — its subsequent `step` is a cache hit on the freshly stored
run). -/
theorem errored_path_step_always_raises :
    (∀ (args : RunArgs) (p : PathExec),
      ErroredPath.step args p =
        .error (.angrPathError "Cannot step forward an errored path")) ∧
    (∀ (engine : Except PyExc SimRun) (args : RunArgs) (p : PathExec),
      (ErroredPath.retry engine args p).2.2.2 = 1) := by
  constructor
  · intro args p; rfl
  · intro engine args p
    rcases engine with e | r
    · rfl
    · obtain ⟨out, h⟩ := step_cached_no_call (.ok r) false args
        { p with run_args := some args, run := some r } rfl (by simp)
      show 1 + (Path.step (.ok r) false args
        { p with run_args := some args, run := some r }).2.2.2 = 1
      rw [h]
      rfl

/-!  `Path.unmerge`: re-expansion of a merged path.  A program state is
modelled by the list of `flag == value` constraints that `unmerge` has added
to it (the base constraints of the merged state are folded into the external
solver's satisfiability predicate `sat`, which is a parameter).  The merge
ledger is the zip of `self._merge_flags` and `self._merge_values`, in the
order the merges were recorded (oldest first). -/

/-- One constraint `flag == value` added by `add_constraints(flag == v)`. -/
abbrev UConstraint := Nat × Nat

/-- A tracked program state: the constraints added to it so far. -/
abbrev UState := List UConstraint

/-- One iteration of the `for flag, values in zip(...)` loop: for every
candidate value (outer loop) clone every currently tracked state (inner loop),
add the constraint, and keep only the satisfiable results. -/
def unmergeRound (sat : UState → Bool) (states : List UState) (flag : Nat)
    (values : List Nat) : List UState :=
  (values.flatMap fun v => states.map fun s => s ++ [(flag, v)]).filter sat

/-- The whole ledger loop of `Path.unmerge`, processing entries
oldest-to-newest as recorded. -/
def unmergeStates (sat : UState → Bool) :
    List (Nat × List Nat) → List UState → List UState
  | [], states => states
  | (flag, values) :: rest, states =>
      unmergeStates sat rest (unmergeRound sat states flag values)

/-- Path.unmerge: start from the single merged state and run the ledger loop;
each surviving state is then simplified and wrapped as a new Path branching
from the merged one (the wrapping adds no states and drops none). -/
def Path.unmerge (sat : UState → Bool) (merge_flags : List Nat)
    (merge_values : List (List Nat)) (s0 : UState) : List UState :=
  unmergeStates sat (merge_flags.zip merge_values) [s0]

/-- All combinations of one candidate value per ledger entry, as constraint
lists in entry order. -/
def ledgerChoices : List (Nat × List Nat) → List (List UConstraint)
  | [] => [[]]
  | (flag, values) :: rest =>
      values.flatMap fun v => (ledgerChoices rest).map fun cs => (flag, v) :: cs

/-- A combination is feasible when every intermediate state built while adding
its constraints one ledger entry at a time passes the solver's satisfiability
check — exactly the per-entry pruning `unmerge` performs. -/
def stepFeasible (sat : UState → Bool) : UState → List UConstraint → Bool
  | _, [] => true
  | s, c :: cs => sat (s ++ [c]) && stepFeasible sat (s ++ [c]) cs

lemma unmergeStates_mem (sat : UState → Bool) :
    ∀ (L : List (Nat × List Nat)) (states : List UState) (s : UState),
      s ∈ unmergeStates sat L states ↔
        ∃ s1 ∈ states, ∃ cs ∈ ledgerChoices L,
          s = s1 ++ cs ∧ stepFeasible sat s1 cs = true := by
  intro L
  induction L with
  | nil =>
      intro states s
      simp [unmergeStates, ledgerChoices, stepFeasible]
  | cons fv rest ih =>
      obtain ⟨flag, values⟩ := fv
      intro states s
      have hstep : unmergeStates sat ((flag, values) :: rest) states
          = unmergeStates sat rest (unmergeRound sat states flag values) := rfl
      rw [hstep, ih]
      constructor
      · rintro ⟨s1, hs1, cs', hcs', hseq, hfeas⟩
        rw [unmergeRound, List.mem_filter] at hs1
        obtain ⟨hmem, hsat⟩ := hs1
        rw [List.mem_flatMap] at hmem
        obtain ⟨v, hv, hmap⟩ := hmem
        rw [List.mem_map] at hmap
        obtain ⟨s0, hs0, rfl⟩ := hmap
        refine ⟨s0, hs0, (flag, v) :: cs', ?_, ?_, ?_⟩
        · rw [ledgerChoices, List.mem_flatMap]
          exact ⟨v, hv, List.mem_map.2 ⟨cs', hcs', rfl⟩⟩
        · rw [hseq]; simp
        · show (sat (s0 ++ [(flag, v)]) && stepFeasible sat (s0 ++ [(flag, v)]) cs') = true
          rw [hsat, hfeas]
          rfl
      · rintro ⟨s0, hs0, cs, hcs, hseq, hfeas⟩
        rw [ledgerChoices, List.mem_flatMap] at hcs
        obtain ⟨v, hv, hmap⟩ := hcs
        rw [List.mem_map] at hmap
        obtain ⟨cs', hcs', rfl⟩ := hmap
        have hfeas' : (sat (s0 ++ [(flag, v)]) &&
            stepFeasible sat (s0 ++ [(flag, v)]) cs') = true := hfeas
        rw [Bool.and_eq_true] at hfeas'
        refine ⟨s0 ++ [(flag, v)], ?_, cs', hcs', ?_, hfeas'.2⟩
        · rw [unmergeRound, List.mem_filter]
          exact ⟨List.mem_flatMap.2 ⟨v, hv, List.mem_map.2 ⟨s0, hs0, rfl⟩⟩, hfeas'.1⟩
        · rw [hseq]; simp

lemma sum_map_const_nat {α : Type} (l : List α) (c : Nat) :
    (l.map fun _ => c).sum = l.length * c := by
  induction l with
  | nil => simp
  | cons a l ih => simp [ih, Nat.succ_mul, Nat.add_comm]

lemma unmergeStates_length (sat : UState → Bool) :
    ∀ (L : List (Nat × List Nat)) (states : List UState),
      (unmergeStates sat L states).length ≤
        (L.map fun fv => fv.2.length).prod * states.length := by
  intro L
  induction L with
  | nil => intro states; simp [unmergeStates]
  | cons fv rest ih =>
      obtain ⟨flag, values⟩ := fv
      intro states
      have h1 : (unmergeRound sat states flag values).length ≤
          values.length * states.length := by
        unfold unmergeRound
        refine le_trans (List.length_filter_le _ _) (le_of_eq ?_)
        rw [List.length_flatMap]
        simp only [Function.comp_def, List.length_map]
        rw [sum_map_const_nat]
      have h2 := ih (unmergeRound sat states flag values)
      calc (unmergeStates sat ((flag, values) :: rest) states).length
          = (unmergeStates sat rest (unmergeRound sat states flag values)).length := rfl
        _ ≤ (rest.map fun fv => fv.2.length).prod *
              (unmergeRound sat states flag values).length := h2
        _ ≤ (rest.map fun fv => fv.2.length).prod *
              (values.length * states.length) := Nat.mul_le_mul_left _ h1
        _ = ((((flag, values) :: rest).map fun fv => fv.2.length).prod) *
              states.length := by
            rw [List.map_cons, List.prod_cons]
            ring

/-- C7: unmerge processes the merge ledger oldest-to-newest; for each entry
and each candidate value in its domain it clones every tracked state and adds
`selector == candidate`, keeping only satisfiable results.  The returned
states are exactly the combinations of one candidate per entry that pass the
per-step satisfiability pruning, and their count is at most the product of
all candidate-domain sizes. -/
theorem unmerge_exactly_feasible (sat : UState → Bool) (merge_flags : List Nat)
    (merge_values : List (List Nat)) (s0 : UState) :
    (∀ s, s ∈ Path.unmerge sat merge_flags merge_values s0 ↔
        ∃ cs ∈ ledgerChoices (merge_flags.zip merge_values),
          s = s0 ++ cs ∧ stepFeasible sat s0 cs = true) ∧
    (Path.unmerge sat merge_flags merge_values s0).length ≤
      ((merge_flags.zip merge_values).map fun fv => fv.2.length).prod := by
  constructor
  · intro s
    rw [Path.unmerge, unmergeStates_mem]
    constructor
    · rintro ⟨s1, hs1, cs, hcs, hseq, hfeas⟩
      rw [List.mem_singleton] at hs1
      subst hs1
      exact ⟨cs, hcs, hseq, hfeas⟩
    · rintro ⟨cs, hcs, hseq, hfeas⟩
      exact ⟨s0, List.mem_singleton.2 rfl, cs, hcs, hseq, hfeas⟩
  · have h := unmergeStates_length sat (merge_flags.zip merge_values) [s0]
    simpa using h

/-!  `Path.merge`: merging several paths that sit at the same address.

The address traces and the history parent chain come from the absent
`path_history` module and are modelled from the spec: a History Node carries
an optional address (the root records none), a Path holds the leaf of a
root-to-leaf chain, and `addr_trace.hardcopy` materializes the recorded
addresses from root to leaf.  A history chain is represented by the
root-to-leaf list of its nodes' addresses. -/

/-- The slice of a `Path` that `merge` reads: its current address (`o.addr`)
and its history chain (root-to-leaf node addresses; modelled from the spec,
see above). -/
structure MPath where
  addr : Int
  history : List (Option Int)
deriving DecidableEq, Inhabited

/-- Modelled from the spec: `addr_trace.hardcopy`, the root-to-leaf list of
recorded addresses of a history chain (nodes without a recorded address — the
root — contribute nothing). -/
def addr_trace_hardcopy (h : List (Option Int)) : List Int :=
  h.filterMap id

/-- What lines 606-616 try to assemble for the new Path: the force-set
logical length and the new history chain (the common ancestor's chain plus
one synthetic merge-marker node, which records no address).  Under the frozen
source this record is never completed: the force-set of `length` raises
before it (see `Path.mergeRewind`), so no `.ok` result is ever produced.
The merge-ledger appends (`_merge_flags`/`_merge_values`/...) that would
follow feed `Path.unmerge` and are modelled in the unmerge section. -/
structure MergeRes where
  length : Nat
  history : List (Option Int)
deriving DecidableEq

/-- Length of the shortest of the given lists (`0` when there are none):
the number of tuples `zip(*addr_lists)` yields. -/
def minLenAux : List (List Int) → Nat
  | [] => 0
  | t :: ts => ts.foldl (fun m l => min m l.length) t.length

/-- The columns of `zip(*addr_lists)` starting at position `i`, `k` columns
(every index involved is within every list, so the `getD` default is never
read). -/
def pyZipAux (ls : List (List Int)) : Nat → Nat → List (List Int)
  | _, 0 => []
  | i, k + 1 => (ls.map fun t => t.getD i 0) :: pyZipAux ls (i + 1) k

/-- Python `zip(*addr_lists)`: tuples of the lists' elements, truncated at the
shortest list. -/
def pyZip (ls : List (List Int)) : List (List Int) :=
  pyZipAux ls 0 (minLenAux ls)

/-- The `for i, addrs in enumerate(zip(*addr_lists))` scan: index of the first
column holding at least two distinct addresses (`len(frozenset(addrs)) != 1`),
counting from `i`. -/
def firstMismatch : List (List Int) → Nat → Option Nat
  | [], _ => none
  | c :: rest, i =>
      if c.dedup.length ≠ 1 then some i else firstMismatch rest (i + 1)

/-- The divergence-index computation of `Path.merge`: break at the first
mismatching column; on normal loop exit (`for`/`else`) use `i + 1` where `i`
is the last loop index — but if the loop body never ran, `i` was never bound
and the `else` clause raises `NameError`. -/
def divergenceIndex (addr_lists : List (List Int)) : Except String Nat :=
  match firstMismatch (pyZip addr_lists) 0 with
  | some i => .ok i
  | none =>
      if (pyZip addr_lists).length = 0 then .error "NameError"
      else .ok (pyZip addr_lists).length

/-- Spec wording: do the participants' traces disagree at position `i`
(some pair of traces differs there)? -/
def tracesDisagreeAt (traces : List (List Int)) (i : Nat) : Bool :=
  traces.any fun t1 => traces.any fun t2 => t1.getD i 0 ≠ t2.getD i 0

/-- Spec-side search for the first position (starting at `i`, looking at the
next `k` positions) at which the traces disagree. -/
def specFirstDisagree (traces : List (List Int)) : Nat → Nat → Option Nat
  | _, 0 => none
  | i, k + 1 =>
      if tracesDisagreeAt traces i then some i
      else specFirstDisagree traces (i + 1) k

/-- The divergence index as the claim words it: the first position at which
the participants' root-to-leaf address traces disagree, or the shortest
trace's length when no disagreement is found within it. -/
def specDivergenceIndex (traces : List (List Int)) : Nat :=
  match specFirstDisagree traces 0 (minLenAux traces) with
  | some i => i
  | none => minLenAux traces

/-- The rewind/assert tail of `Path.merge`, after the divergence index has
been computed: walk `rewind_count` parent links up from the first
participant's leaf (running off the root raises `AttributeError` on `None`),
assert the ancestor's address equals `addr_lists[0][divergence_index - 1]`
(Python indexing: `-1` wraps to the last element; an out-of-range access
raises `IndexError`).  When the assert passes, the reassignment of
`new_path.history` to the ancestor plus a merge-marker node and the `_runstr`
tag succeed (plain attributes), but `new_path.length = divergence_index`
(line 608) then raises `AttributeError`: `Path.length` (lines 250-252) is a
getter-only property — of the Path properties only `addr` has a setter — so
the force-set fails, `merge` can never return, and the ledger appends below
it are unreachable. -/
def Path.mergeRewind (hist0 : List (Option Int)) (first_trace : List Int)
    (di : Nat) : Except String MergeRes :=
  let rewind_count := first_trace.length - di
  if rewind_count + 1 > hist0.length then .error "AttributeError"
  else
    match pyIdx first_trace ((di : Int) - 1) with
    | .error e => .error e
    | .ok expected =>
        if hist0.getD (hist0.length - 1 - rewind_count) none ≠ some expected then
          .error "AssertionError"
        else
          .error "AttributeError"

/-- The body of `Path.merge` past the precondition: materialize every
participant's address trace, compute the divergence index, and run the
rewind/assert tail on the first participant
(`all_paths[0] = (list(others) + [self])[0]`). -/
def Path.mergeCore (all_paths : List MPath) : Except String MergeRes :=
  match divergenceIndex (all_paths.map fun x => addr_trace_hardcopy x.history) with
  | .error e => .error e
  | .ok di =>
      Path.mergeRewind (all_paths.headI.history)
        ((all_paths.map fun x => addr_trace_hardcopy x.history).headI) di

/-- Path.merge: `all_paths = list(others) + [self]`; if the participants'
current addresses are not all identical
(`len(set(o.addr for o in all_paths)) != 1`) raise
`AngrPathError("Unable to merge paths.")` — *before* `self.state.merge(...)`
is reached.  The second component counts invocations of the external state
provider's merge. -/
def Path.merge (self : MPath) (others : List MPath) :
    Except String MergeRes × Nat :=
  if ((others ++ [self]).map MPath.addr).dedup.length ≠ 1 then
    (.error "Unable to merge paths.", 0)
  else
    (Path.mergeCore (others ++ [self]), 1)

/-- C6: if at least two participants report different current addresses,
`merge` fails with the merge-precondition error and the external state
provider's merge operation is never invoked (invocation count 0; the
participants, being inputs, are untouched). -/
theorem merge_differing_addrs_error (self : MPath) (others : List MPath)
    (h : ∃ p ∈ others ++ [self], ∃ q ∈ others ++ [self], p.addr ≠ q.addr) :
    Path.merge self others = (.error "Unable to merge paths.", 0) := by
  obtain ⟨p, hp, q, hq, hne⟩ := h
  have hd : ((others ++ [self]).map MPath.addr).dedup.length ≠ 1 := by
    intro h1
    obtain ⟨a, ha⟩ := List.length_eq_one.mp h1
    have hpa : p.addr = a := by
      have hm : p.addr ∈ ((others ++ [self]).map MPath.addr).dedup :=
        List.mem_dedup.mpr (List.mem_map.mpr ⟨p, hp, rfl⟩)
      rw [ha] at hm
      simpa using hm
    have hqa : q.addr = a := by
      have hm : q.addr ∈ ((others ++ [self]).map MPath.addr).dedup :=
        List.mem_dedup.mpr (List.mem_map.mpr ⟨q, hq, rfl⟩)
      rw [ha] at hm
      simpa using hm
    exact hne (hpa.trans hqa.symm)
  unfold Path.merge
  rw [if_pos hd]

/-- C6 witness: two paths at addresses 0x400000 and 0x500000. -/
theorem merge_differing_addrs_error_witness :
    (∃ p ∈ [(⟨0x400000, [none]⟩ : MPath)] ++ [(⟨0x500000, [none]⟩ : MPath)],
      ∃ q ∈ [(⟨0x400000, [none]⟩ : MPath)] ++ [(⟨0x500000, [none]⟩ : MPath)],
        p.addr ≠ q.addr) ∧
    Path.merge ⟨0x500000, [none]⟩ [⟨0x400000, [none]⟩] =
      (.error "Unable to merge paths.", 0) :=
  ⟨by decide, merge_differing_addrs_error ⟨0x500000, [none]⟩ [⟨0x400000, [none]⟩]
    (by decide)⟩

/-- An earlier failure mode of the same procedure: two freshly initialized
Paths at the same address have empty address traces, so the `for`/`else`
computing the divergence index never binds its loop variable and `merge`
raises `NameError` (after having invoked the state merge) — it does not even
reach the rewind, the assert or the length force-set. -/
theorem merge_fresh_paths_error :
    Path.merge ⟨0x400000, [none]⟩ [⟨0x400000, [none]⟩] =
      (.error "NameError", 1) := by
  rfl

lemma dedup_length_one_iff {l : List Int} (hl : l ≠ []) :
    l.dedup.length = 1 ↔ ∃ a, ∀ x ∈ l, x = a := by
  constructor
  · intro h
    obtain ⟨a, ha⟩ := List.length_eq_one.mp h
    refine ⟨a, fun x hx => ?_⟩
    have hm : x ∈ l.dedup := List.mem_dedup.mpr hx
    rw [ha] at hm
    simpa using hm
  · rintro ⟨a, ha⟩
    have hmem : a ∈ l := by
      rcases l with _ | ⟨x, xs⟩
      · exact absurd rfl hl
      · have hx := ha x (List.mem_cons_self x xs)
        rw [← hx]
        exact List.mem_cons_self x xs
    have hsub : ∀ x ∈ l.dedup, x = a := fun x hx => ha x (List.mem_dedup.mp hx)
    have hnd := l.nodup_dedup
    have hadm : a ∈ l.dedup := List.mem_dedup.mpr hmem
    rcases hd : l.dedup with _ | ⟨b, rest⟩
    · rw [hd] at hadm; simp at hadm
    · rcases rest with _ | ⟨c, rest'⟩
      · simp [hd]
      · exfalso
        rw [hd] at hsub hnd
        have hb : b = a := hsub b (by simp)
        have hc : c = a := hsub c (by simp)
        rw [hb, hc] at hnd
        simp at hnd

lemma foldl_min_le_init (ts : List (List Int)) :
    ∀ m : Nat, ts.foldl (fun m l => min m l.length) m ≤ m := by
  induction ts with
  | nil => intro m; simp
  | cons t ts ih =>
      intro m
      calc ts.foldl (fun m l => min m l.length) (min m t.length)
          ≤ min m t.length := ih _
        _ ≤ m := min_le_left _ _

lemma foldl_min_le_mem (ts : List (List Int)) :
    ∀ m : Nat, ∀ t ∈ ts, ts.foldl (fun m l => min m l.length) m ≤ t.length := by
  induction ts with
  | nil => intro m t ht; simp at ht
  | cons u ts ih =>
      intro m t ht
      rcases List.mem_cons.mp ht with rfl | ht'
      · calc ts.foldl (fun m l => min m l.length) (min m t.length)
            ≤ min m t.length := foldl_min_le_init ts _
          _ ≤ t.length := min_le_right _ _
      · exact ih _ t ht'

lemma minLenAux_le {ls : List (List Int)} {t : List Int} (ht : t ∈ ls) :
    minLenAux ls ≤ t.length := by
  rcases ls with _ | ⟨u, ts⟩
  · simp at ht
  · rcases List.mem_cons.mp ht with rfl | ht'
    · exact foldl_min_le_init ts _
    · exact foldl_min_le_mem ts _ t ht'

lemma foldl_min_pos (ts : List (List Int)) :
    ∀ m : Nat, 1 ≤ m → (∀ t ∈ ts, 1 ≤ t.length) →
      1 ≤ ts.foldl (fun m l => min m l.length) m := by
  induction ts with
  | nil => intro m hm _; simpa using hm
  | cons u ts ih =>
      intro m hm hts
      refine ih _ (le_min hm (hts u (by simp))) fun t ht => hts t ?_
      exact List.mem_cons_of_mem _ ht

lemma minLenAux_pos {ls : List (List Int)} (hne : ls ≠ [])
    (h : ∀ t ∈ ls, t ≠ []) : 1 ≤ minLenAux ls := by
  rcases ls with _ | ⟨t, ts⟩
  · exact absurd rfl hne
  · refine foldl_min_pos ts _ (List.length_pos.mpr (h t (by simp))) fun u hu => ?_
    exact List.length_pos.mpr (h u (List.mem_cons_of_mem _ hu))

lemma pyZipAux_length (ls : List (List Int)) :
    ∀ (k i : Nat), (pyZipAux ls i k).length = k := by
  intro k
  induction k with
  | zero => intro i; rfl
  | succ k ih => intro i; simp [pyZipAux, ih]

lemma col_dedup_one_iff {ls : List (List Int)} (hne : ls ≠ []) (i : Nat) :
    ((ls.map fun t => t.getD i 0).dedup.length = 1) ↔
      tracesDisagreeAt ls i = false := by
  rw [dedup_length_one_iff (by simpa using hne)]
  constructor
  · rintro ⟨a, ha⟩
    rw [tracesDisagreeAt, Bool.eq_false_iff]
    intro hany
    rw [List.any_eq_true] at hany
    obtain ⟨t1, ht1, hany2⟩ := hany
    rw [List.any_eq_true] at hany2
    obtain ⟨t2, ht2, hne12⟩ := hany2
    rw [decide_eq_true_eq] at hne12
    exact hne12 ((ha _ (List.mem_map.mpr ⟨t1, ht1, rfl⟩)).trans
      (ha _ (List.mem_map.mpr ⟨t2, ht2, rfl⟩)).symm)
  · intro hdis
    rcases ls with _ | ⟨t, ts⟩
    · exact absurd rfl hne
    refine ⟨t.getD i 0, fun x hx => ?_⟩
    rw [List.mem_map] at hx
    obtain ⟨u, hu, rfl⟩ := hx
    rw [tracesDisagreeAt, Bool.eq_false_iff] at hdis
    by_contra hxne
    apply hdis
    rw [List.any_eq_true]
    refine ⟨u, hu, ?_⟩
    rw [List.any_eq_true]
    exact ⟨t, by simp, decide_eq_true hxne⟩

lemma firstMismatch_eq_spec {ls : List (List Int)} (hne : ls ≠ []) :
    ∀ (k i : Nat), firstMismatch (pyZipAux ls i k) i = specFirstDisagree ls i k := by
  intro k
  induction k with
  | zero => intro i; rfl
  | succ k ih =>
      intro i
      show firstMismatch ((ls.map fun t => t.getD i 0) :: pyZipAux ls (i + 1) k) i
          = specFirstDisagree ls i (k + 1)
      by_cases hdis : tracesDisagreeAt ls i = true
      · have hlen : (ls.map fun t => t.getD i 0).dedup.length ≠ 1 := by
          intro h1
          rw [col_dedup_one_iff hne i] at h1
          rw [h1] at hdis
          exact Bool.false_ne_true hdis
        rw [firstMismatch, specFirstDisagree, if_pos hlen, if_pos hdis]
      · have hfalse : tracesDisagreeAt ls i = false := Bool.not_eq_true _ |>.mp hdis
        have hlen : ¬ ((ls.map fun t => t.getD i 0).dedup.length ≠ 1) :=
          not_not.mpr ((col_dedup_one_iff hne i).mpr hfalse)
        rw [firstMismatch, specFirstDisagree, if_neg hlen, if_neg hdis]
        exact ih (i + 1)

lemma specFirstDisagree_some_bound (ls : List (List Int)) :
    ∀ (k i j : Nat), specFirstDisagree ls i k = some j → i ≤ j ∧ j < i + k := by
  intro k
  induction k with
  | zero => intro i j h; exact absurd h (by simp [specFirstDisagree])
  | succ k ih =>
      intro i j h
      rw [specFirstDisagree] at h
      by_cases hdis : tracesDisagreeAt ls i = true
      · rw [if_pos hdis] at h
        obtain rfl := Option.some.inj h
        omega
      · rw [if_neg hdis] at h
        have := ih (i + 1) j h
        omega

lemma divergenceIndex_eq_spec {ls : List (List Int)} (hne : ls ≠ [])
    (hmin : 1 ≤ minLenAux ls) :
    divergenceIndex ls = .ok (specDivergenceIndex ls) := by
  unfold divergenceIndex specDivergenceIndex pyZip
  rw [firstMismatch_eq_spec hne]
  rcases h : specFirstDisagree ls 0 (minLenAux ls) with _ | j
  · simp only [h, pyZipAux_length ls (minLenAux ls) 0]
    rw [if_neg (by omega)]
  · simp only [h]

lemma specDivergenceIndex_le (ls : List (List Int)) :
    specDivergenceIndex ls ≤ minLenAux ls := by
  unfold specDivergenceIndex
  rcases h : specFirstDisagree ls 0 (minLenAux ls) with _ | j
  · simp [h]
  · simp only [h]
    have hb := specFirstDisagree_some_bound ls (minLenAux ls) 0 j h
    omega

lemma specDivergenceIndex_pos {ls : List (List Int)} (hmin : 1 ≤ minLenAux ls)
    (hagree : tracesDisagreeAt ls 0 = false) :
    1 ≤ specDivergenceIndex ls := by
  unfold specDivergenceIndex
  obtain ⟨k, hk⟩ : ∃ k, minLenAux ls = k + 1 := ⟨minLenAux ls - 1, by omega⟩
  rw [hk, specFirstDisagree, if_neg (by simp [hagree])]
  rcases h : specFirstDisagree ls 1 k with _ | j
  · simp [h]
  · simp only [h]
    have hb := specFirstDisagree_some_bound ls k 1 j h
    omega

lemma hardcopy_root_chain (t : List Int) :
    addr_trace_hardcopy (none :: t.map some) = t := by
  simp [addr_trace_hardcopy]

lemma pyIdx_ofNat (xs : List Int) (n : Nat) (h : n < xs.length) :
    pyIdx xs (n : Int) = .ok (xs.getD n 0) := by
  simp only [pyIdx]
  rw [if_neg (by omega)]
  rw [dif_pos (by constructor <;> omega)]
  simp

lemma mergeRewind_length_set_raises (t0 : List Int) (di : Nat) (h1 : 1 ≤ di)
    (h2 : di ≤ t0.length) :
    Path.mergeRewind (none :: t0.map some) t0 di = .error "AttributeError" := by
  obtain ⟨dj, rfl⟩ : ∃ dj, di = dj + 1 := ⟨di - 1, by omega⟩
  have hdj : dj < t0.length := by omega
  have hcast : ((dj + 1 : Nat) : Int) - 1 = ((dj : Nat) : Int) := by push_cast; ring
  have hidx : (none :: t0.map some).length - 1 - (t0.length - (dj + 1)) = dj + 1 := by
    simp only [List.length_cons, List.length_map]
    omega
  have hgd : (t0.map some).getD dj none = some (t0.getD dj 0) := by
    simp [List.getD_eq_getElem?_getD, List.getElem?_map, List.getElem?_eq_getElem hdj]
  simp only [Path.mergeRewind]
  rw [if_neg (by simp only [List.length_cons, List.length_map]; omega)]
  rw [hcast, pyIdx_ofNat t0 dj hdj]
  simp only [hidx, List.getD_cons_succ, hgd]
  rw [if_neg (by simp)]

/-- A Path at address `a` whose history chain is the root node (no recorded
address) followed by one node per recorded trace address — the shape the
normal Path lifecycle produces (fresh root, then one history node per step). -/
def MPath.ofTrace (a : Int) (t : List Int) : MPath :=
  { addr := a, history := none :: t.map some }

/-- C1: the claim states the spec's intent (`merge` succeeds and the new
Path's logical length is force-set to the divergence index), but the frozen
source cannot deliver it: `Path.length` is a getter-only property (lines
250-252; only `addr` has a setter), so `new_path.length = divergence_index`
raises `AttributeError` whenever it is reached.  Even in the best case —
identical current addresses, nonempty traces agreeing at their first position,
lifecycle-shaped histories, so the divergence scan, the rewind and the
common-ancestor assert all pass — `merge` raises `AttributeError` instead of
returning; the divergence index the code computes (and tries and fails to
assign) is exactly the one the claim describes, as the second conjunct
states. -/
theorem merge_never_succeeds_length_setter (A : Int) (selfT : List Int)
    (othersT : List (List Int))
    (hne : ∀ t ∈ othersT ++ [selfT], t ≠ [])
    (hfst : ∀ t ∈ othersT ++ [selfT], t.getD 0 0 = selfT.getD 0 0) :
    Path.merge (MPath.ofTrace A selfT) (othersT.map (MPath.ofTrace A))
      = (.error "AttributeError", 1) ∧
    divergenceIndex (othersT ++ [selfT])
      = .ok (specDivergenceIndex (othersT ++ [selfT])) := by
  have haddr : ∀ x ∈ (othersT.map (MPath.ofTrace A) ++
      [MPath.ofTrace A selfT]).map MPath.addr, x = A := by
    intro x hx
    obtain ⟨p, hp, rfl⟩ := List.mem_map.mp hx
    rcases List.mem_append.mp hp with hp' | hp'
    · obtain ⟨t, _, rfl⟩ := List.mem_map.mp hp'
      rfl
    · rw [List.mem_singleton] at hp'
      subst hp'
      rfl
  have hcond : ¬ (((othersT.map (MPath.ofTrace A) ++
      [MPath.ofTrace A selfT]).map MPath.addr).dedup.length ≠ 1) := by
    apply not_not.mpr
    rw [dedup_length_one_iff (by simp)]
    exact ⟨A, haddr⟩
  have haddr_lists : (othersT.map (MPath.ofTrace A) ++
      [MPath.ofTrace A selfT]).map (fun x => addr_trace_hardcopy x.history) =
      othersT ++ [selfT] := by
    rw [List.map_append, List.map_map]
    simp [Function.comp_def, MPath.ofTrace, hardcopy_root_chain]
  have hmin : 1 ≤ minLenAux (othersT ++ [selfT]) :=
    minLenAux_pos (by simp) hne
  have hdiv := @divergenceIndex_eq_spec (othersT ++ [selfT]) (by simp) hmin
  have hagree : tracesDisagreeAt (othersT ++ [selfT]) 0 = false := by
    rw [tracesDisagreeAt, Bool.eq_false_iff]
    intro hany
    rw [List.any_eq_true] at hany
    obtain ⟨t1, ht1, h2'⟩ := hany
    rw [List.any_eq_true] at h2'
    obtain ⟨t2, ht2, hne12⟩ := h2'
    rw [decide_eq_true_eq] at hne12
    exact hne12 ((hfst t1 ht1).trans (hfst t2 ht2).symm)
  have hdi1 : 1 ≤ specDivergenceIndex (othersT ++ [selfT]) :=
    specDivergenceIndex_pos hmin hagree
  have ht0mem : (othersT ++ [selfT]).headI ∈ othersT ++ [selfT] := by
    cases othersT <;> simp
  have hdit0 : specDivergenceIndex (othersT ++ [selfT]) ≤
      ((othersT ++ [selfT]).headI).length :=
    le_trans (specDivergenceIndex_le _) (minLenAux_le ht0mem)
  have hhead_all : (othersT.map (MPath.ofTrace A) ++
      [MPath.ofTrace A selfT]).headI =
      MPath.ofTrace A ((othersT ++ [selfT]).headI) := by
    cases othersT <;> rfl
  refine ⟨?_, hdiv⟩
  have hcore : Path.mergeCore (othersT.map (MPath.ofTrace A) ++
      [MPath.ofTrace A selfT]) = .error "AttributeError" := by
    unfold Path.mergeCore
    rw [haddr_lists, hdiv]
    show Path.mergeRewind ((othersT.map (MPath.ofTrace A) ++
        [MPath.ofTrace A selfT]).headI.history) ((othersT ++ [selfT]).headI)
        (specDivergenceIndex (othersT ++ [selfT])) = .error "AttributeError"
    rw [hhead_all]
    show Path.mergeRewind (none :: ((othersT ++ [selfT]).headI).map some)
        ((othersT ++ [selfT]).headI)
        (specDivergenceIndex (othersT ++ [selfT])) = .error "AttributeError"
    exact mergeRewind_length_set_raises _ _ hdi1 hdit0
  unfold Path.merge
  rw [if_neg hcond, hcore]

/-- C1 witness: traces `[0x10, 0x20]` and `[0x10, 0x30]` at the common
address 0x1000 diverge at position 1; the code computes divergence index 1
and then `merge` raises `AttributeError` at the length force-set. -/
theorem merge_never_succeeds_length_setter_witness :
    (∀ t ∈ [[(0x10 : Int), 0x20]] ++ [[(0x10 : Int), 0x30]], t ≠ []) ∧
    (∀ t ∈ [[(0x10 : Int), 0x20]] ++ [[(0x10 : Int), 0x30]],
      t.getD 0 0 = [(0x10 : Int), 0x30].getD 0 0) ∧
    (Path.merge (MPath.ofTrace 0x1000 [0x10, 0x30])
        ([[(0x10 : Int), 0x20]].map (MPath.ofTrace 0x1000))
      = (.error "AttributeError", 1) ∧
    divergenceIndex ([[(0x10 : Int), 0x20]] ++ [[(0x10 : Int), 0x30]])
      = .ok (specDivergenceIndex ([[(0x10 : Int), 0x20]] ++ [[(0x10 : Int), 0x30]]))) :=
  ⟨by decide, by decide,
    merge_never_succeeds_length_setter 0x1000 [0x10, 0x30] [[0x10, 0x20]]
      (by decide) (by decide)⟩

/-!  `Path.copy` and `CallStack.copy`: aliasing.  To state that mutating the
copy's CallStack never affects the original (and vice versa) we make object
identity explicit: CallFrame objects live in a heap indexed by `Nat`
identities, a CallStack is the list of its frames' identities (bottom first),
and `CallFrame.copy` allocates a fresh object with the same field values. -/

/-- A heap of CallFrame objects: `get` reads the object with a given identity,
`next` is the next fresh identity (all live identities are below it). -/
structure FrameHeap where
  get : Nat → CallFrame
  next : Nat

/-- Construction of a new CallFrame object: store it at a fresh identity. -/
def allocFrame (h : FrameHeap) (cf : CallFrame) : FrameHeap × Nat :=
  ({ get := fun k => if k = h.next then cf else h.get k, next := h.next + 1 },
    h.next)

/-- CallStack.copy: `[cf.copy() for cf in self._callstack]` — one fresh frame
object per existing frame, carrying the same field values (`CallFrame.copy`
copies every field, with a fresh Counter holding the same counts). -/
def copyCallStack (h : FrameHeap) : List Nat → FrameHeap × List Nat
  | [] => (h, [])
  | i :: rest =>
      let (h', j) := allocFrame h (h.get i)
      let (h'', js) := copyCallStack h' rest
      (h'', j :: js)

/-- In-place mutation of one frame object: the per-step visit-counter update
`frame.block_counter[a] += 1`. -/
def bumpCounter (h : FrameHeap) (i : Nat) (a : Nat) : FrameHeap :=
  { h with get := fun k => if k = i then (h.get i).bump a else h.get k }

/-- CallStack.push of a newly constructed frame: allocate the object and
append its identity at the top (tail). -/
def pushCallStack (h : FrameHeap) (ids : List Nat) (cf : CallFrame) :
    FrameHeap × List Nat :=
  let (h', j) := allocFrame h cf
  (h', ids ++ [j])

/-- The part of a `Path` that C9 observes: its current address and its
callstack as a list of frame-object identities. -/
structure PathH where
  addr : Int
  callstack : List Nat

/-- Path.copy: the new Path holds `self.state.copy()` (same instruction
pointer, hence the same address) and `self.callstack.copy()`. -/
def Path.copyH (h : FrameHeap) (p : PathH) : FrameHeap × PathH :=
  let (h', ids') := copyCallStack h p.callstack
  (h', { addr := p.addr, callstack := ids' })

lemma copyCallStack_spec (ids : List Nat) :
    ∀ h : FrameHeap, (∀ i ∈ ids, i < h.next) →
      (copyCallStack h ids).1.next = h.next + ids.length ∧
      (∀ i, i < h.next → (copyCallStack h ids).1.get i = h.get i) ∧
      (∀ j ∈ (copyCallStack h ids).2,
        h.next ≤ j ∧ j < (copyCallStack h ids).1.next) ∧
      List.Forall₂
        (fun i j => (copyCallStack h ids).1.get j = (copyCallStack h ids).1.get i)
        ids (copyCallStack h ids).2 := by
  induction ids with
  | nil =>
      intro h _
      exact ⟨by simp [copyCallStack], fun i _ => rfl,
        by simp [copyCallStack], by simp [copyCallStack]⟩
  | cons i rest ih =>
      intro h hwf
      have hi : i < h.next := hwf i (by simp)
      have hwf' : ∀ a ∈ rest,
          a < (FrameHeap.mk (fun k => if k = h.next then h.get i else h.get k)
            (h.next + 1)).next := by
        intro a ha
        have := hwf a (List.mem_cons_of_mem _ ha)
        simp only
        omega
      obtain ⟨hnext, hpres, hrange, hfa⟩ := ih _ hwf'
      rcases hrec : copyCallStack
          (FrameHeap.mk (fun k => if k = h.next then h.get i else h.get k)
            (h.next + 1)) rest with ⟨h'', js⟩
      rw [hrec] at hnext hpres hrange hfa
      simp only at hnext hpres hrange hfa
      have hunfold : copyCallStack h (i :: rest) = (h'', h.next :: js) := by
        simp only [copyCallStack, allocFrame]
        rw [hrec]
      have h1un : (copyCallStack h (i :: rest)).1 = h'' := by rw [hunfold]
      have h2un : (copyCallStack h (i :: rest)).2 = h.next :: js := by rw [hunfold]
      rw [h1un, h2un]
      refine ⟨by simp only [List.length_cons]; omega, ?_, ?_, ?_⟩
      · intro i0 hi0
        rw [hpres i0 (by omega)]
        rw [if_neg (by omega)]
      · intro j hj
        rcases List.mem_cons.mp hj with rfl | hj'
        · exact ⟨le_refl _, by omega⟩
        · have hb := hrange j hj'
          exact ⟨by omega, hb.2⟩
      · constructor
        · have h1 : h''.get h.next = h.get i := by
            rw [hpres h.next (by omega)]
            simp
          have h2 : h''.get i = h.get i := by
            rw [hpres i (by omega)]
            rw [if_neg (by omega)]
          rw [h1, h2]
        · exact hfa

/-- What C9 asserts of `Path.copy` for the callstack: the copy has the same
address; its frames are (structurally, in fact field-for-field) equal to the
original's; a visit-counter mutation through any of the copy's frame objects
leaves every frame of the original untouched, and vice versa; and a push on
the copy (which allocates a fresh object) leaves every existing frame of
either stack untouched (a pop removes an identity from the popping stack's
own list and touches no frame object at all). -/
def CopyIndependent (h₀ : FrameHeap) (p : PathH) : Prop :=
  ((Path.copyH h₀ p).2).addr = p.addr ∧
  List.Forall₂
    (fun i j => (Path.copyH h₀ p).1.get j = (Path.copyH h₀ p).1.get i)
    p.callstack ((Path.copyH h₀ p).2).callstack ∧
  (∀ j ∈ ((Path.copyH h₀ p).2).callstack, ∀ a, ∀ i ∈ p.callstack,
    (bumpCounter (Path.copyH h₀ p).1 j a).get i = (Path.copyH h₀ p).1.get i) ∧
  (∀ i ∈ p.callstack, ∀ a, ∀ j ∈ ((Path.copyH h₀ p).2).callstack,
    (bumpCounter (Path.copyH h₀ p).1 i a).get j = (Path.copyH h₀ p).1.get j) ∧
  (∀ cf, ∀ i ∈ p.callstack ++ ((Path.copyH h₀ p).2).callstack,
    ((pushCallStack (Path.copyH h₀ p).1 ((Path.copyH h₀ p).2).callstack cf).1).get i
      = (Path.copyH h₀ p).1.get i)

/-- C9: `copy()` yields a Path with the original's address and a structurally
equal callstack, built from disjoint fresh frame objects, so that callstack
mutations (visit-counter updates, pushes, pops) through the copy leave the
original's callstack unchanged and vice versa. -/
theorem path_copy_independent (h₀ : FrameHeap) (p : PathH)
    (hwf : ∀ i ∈ p.callstack, i < h₀.next) : CopyIndependent h₀ p := by
  obtain ⟨hnext, hpres, hrange, hfa⟩ := copyCallStack_spec p.callstack h₀ hwf
  rcases hrec : copyCallStack h₀ p.callstack with ⟨h₁, ids'⟩
  rw [hrec] at hnext hpres hrange hfa
  replace hnext : h₁.next = h₀.next + p.callstack.length := hnext
  replace hpres : ∀ i, i < h₀.next → h₁.get i = h₀.get i := hpres
  replace hrange : ∀ j ∈ ids', h₀.next ≤ j ∧ j < h₁.next := hrange
  replace hfa : List.Forall₂ (fun i j => h₁.get j = h₁.get i)
    p.callstack ids' := hfa
  have hcopy : Path.copyH h₀ p = (h₁, { addr := p.addr, callstack := ids' }) := by
    simp only [Path.copyH]
    rw [hrec]
  unfold CopyIndependent
  rw [hcopy]
  refine ⟨rfl, hfa, ?_, ?_, ?_⟩
  · intro j hj a i hi
    have hdisj : i ≠ j := by
      have h1 := hwf i hi
      have h2 := (hrange j hj).1
      omega
    simp only [bumpCounter]
    rw [if_neg hdisj]
  · intro i hi a j hj
    have hdisj : j ≠ i := by
      have h1 := hwf i hi
      have h2 := (hrange j hj).1
      omega
    simp only [bumpCounter]
    rw [if_neg hdisj]
  · intro cf i hi
    have hlt : i < h₁.next := by
      rcases List.mem_append.mp hi with hi' | hi'
      · have := hwf i hi'
        omega
      · exact (hrange i hi').2
    simp only [pushCallStack, allocFrame]
    rw [if_neg (by omega)]

/-- C9 witness: a heap holding one frame (identity 0) and a Path whose
callstack consists of that frame. -/
theorem path_copy_independent_witness :
    CopyIndependent { get := fun _ => CallFrame.empty, next := 1 }
      { addr := 0x400000, callstack := [0] } :=
  path_copy_independent _ _ (by decide)
